import Mathlib

/-!
Shallow embedding of src/app.py (card-price-tracker).

Python / pandas / JSON cell values are modelled by `PyVal`; Python floats
are modelled by ℚ (no claim here depends on floating-point rounding).
Fallible Python code (expressions that can raise, caught by the
surrounding try/except) is modelled with `Except`/`Option`.
-/

/-- A Python / pandas cell value: `None`/NaN, a string, an int, or a
float (modelled as a rational). -/
inductive PyVal : Type where
  | vNone : PyVal
  | vStr (s : String) : PyVal
  | vInt (n : Int) : PyVal
  | vFloat (q : ℚ) : PyVal
deriving DecidableEq

/-- Pandas `pd.notna`: false exactly on the missing-value marker. -/
def PyVal.notna : PyVal → Bool
  | .vNone => false
  | _ => true

/-- Python truthiness of a cell value (`if value:`). -/
def PyVal.truthy : PyVal → Bool
  | .vNone => false
  | .vStr s => !(s == "")
  | .vInt n => !(n == 0)
  | .vFloat q => !(q == 0)

/-- Value of a digit string (caller checks the characters are digits). -/
def digitsToNat (cs : List Char) : Nat :=
  cs.foldl (fun a c => a * 10 + (c.toNat - 48)) 0

def allDigits (cs : List Char) : Bool := cs.all Char.isDigit

/-- Strip leading and trailing whitespace (Python `str.strip`, applied by
`float(...)` / `int(...)` before parsing). -/
def trimChars (cs : List Char) : List Char :=
  ((cs.dropWhile Char.isWhitespace).reverse.dropWhile Char.isWhitespace).reverse

/-- Python `float(s)` on a string: optional sign, digits, optional single
decimal point.  Returns `none` where CPython raises `ValueError`
(e.g. `float("abc")`). -/
def pyFloatOfString (s : String) : Option ℚ :=
  let t := trimChars s.data
  let sgn : Int := match t with
    | '-' :: _ => -1
    | _ => 1
  let body : List Char := match t with
    | '-' :: rest => rest
    | '+' :: rest => rest
    | cs => cs
  match body.span (fun c => !(c == '.')) with
  | (intPart, []) =>
      if !intPart.isEmpty && allDigits intPart then
        some (mkRat (sgn * (digitsToNat intPart : Int)) 1)
      else none
  | (intPart, _dot :: fracPart) =>
      if (!intPart.isEmpty || !fracPart.isEmpty)
          && allDigits intPart && allDigits fracPart then
        some (mkRat
          (sgn * ((digitsToNat intPart : Int) * (10 ^ fracPart.length : Nat)
            + (digitsToNat fracPart : Int)))
          (10 ^ fracPart.length))
      else none

/-- Python `int(s)` on a string: optional sign then digits only. -/
def pyIntOfString (s : String) : Option Int :=
  let t := trimChars s.data
  match t with
  | '-' :: rest =>
      if !rest.isEmpty && allDigits rest then some (-(digitsToNat rest : Int)) else none
  | '+' :: rest =>
      if !rest.isEmpty && allDigits rest then some (digitsToNat rest : Int) else none
  | cs =>
      if !cs.isEmpty && allDigits cs then some (digitsToNat cs : Int) else none

/-- Truncation toward zero, as Python `int(float)` / pandas `astype(int)`
(`Int.tdiv` truncates toward zero). -/
def ratTrunc (q : ℚ) : Int := q.num.tdiv (q.den : Int)

/-- Python `float(value)`: raises (`.error`) on a non-numeric string or on
`None`. -/
def pyFloat : PyVal → Except String ℚ
  | .vInt n => .ok (n : ℚ)
  | .vFloat q => .ok q
  | .vStr s =>
      match pyFloatOfString s with
      | some q => .ok q
      | none => .error s
  | .vNone => .error "float(None)"

/-- Python `int(value)`: raises (`.error`) on a non-numeric string or on
`None`; truncates a float toward zero. -/
def pyInt : PyVal → Except String Int
  | .vInt n => .ok n
  | .vFloat q => .ok (ratTrunc q)
  | .vStr s =>
      match pyIntOfString s with
      | some n => .ok n
      | none => .error s
  | .vNone => .error "int(None)"

/-- Python `str(value)`.  (The float rendering is not relied on by any
theorem below.) -/
def pyStr : PyVal → String
  | .vStr s => s
  | .vInt n => toString n
  | .vFloat q => toString q
  | .vNone => "None"

/-! ## The reconciler: `save_incremental_changes` (src/app.py lines 149-218) -/

/-- One row of `display_df_editor` as far as `save_incremental_changes`
reads it: the function accesses only the `id` column (an int after
`load_data`) and the `date` column (a string after
`display_df['date'] = display_df['date'].astype(str)`). -/
structure Row where
  id : Int
  date : String
deriving DecidableEq

/-- The `st.session_state["data_editor"]` payload consumed by
`save_incremental_changes`: `deleted_rows` is a list of view positions,
`edited_rows` maps view positions to changed columns (a Python dict,
modelled as an insertion-ordered association list). -/
structure EditorState where
  deleted_rows : List Nat
  edited_rows : List (Nat × List (String × PyVal))
deriving DecidableEq

/-- An update payload (`update_data`): a Python dict from column name to
value, modelled as an insertion-ordered association list. -/
abbrev Payload : Type := List (String × PyVal)

/-- Python dict assignment `d[k] = v`: overwrite in place if the key is
present, else append. -/
def setKey (pl : Payload) (k : String) (v : PyVal) : Payload :=
  if pl.any (fun kv => kv.1 == k) then
    pl.map (fun kv => if kv.1 == k then (k, v) else kv)
  else pl ++ [(k, v)]

/-- Python dict lookup `d[k]` (as an `Option`). -/
def lookupKey (pl : Payload) (k : String) : Option PyVal :=
  (pl.find? (fun kv => kv.1 == k)).map (fun kv => kv.2)

/-- One iteration of the `for col, value in changes.items():` loop of
`save_incremental_changes` (src/app.py lines 194-203).  `float(...)` /
`int(...)` may raise, which the source catches in the function-level
`except`; this is the `.error` case. -/
def applyChange (pl : Payload) (col : String) (v : PyVal) : Except String Payload :=
  if col == "date" then
    .ok (if v.truthy then setKey pl col v else pl)
  else if col == "price" then
    match (if v.notna then pyFloat v else .ok 0) with
    | .ok q => .ok (setKey pl col (.vFloat q))
    | .error e => .error e
  else if col == "quantity" then
    match (if v.notna then pyInt v else .ok 0) with
    | .ok n => .ok (setKey pl col (.vInt n))
    | .error e => .error e
  else
    .ok (setKey pl col (.vStr (if v.notna then pyStr v else "")))

/-- The whole `for col, value in changes.items():` loop. -/
def applyChanges (pl : Payload) : List (String × PyVal) → Except String Payload
  | [] => .ok pl
  | c :: rest =>
      match applyChange pl c.1 c.2 with
      | .error e => .error e
      | .ok pl' => applyChanges pl' rest

/-- Positional access `displayed_df.iloc[i]` for an index already checked to be in range
(out-of-range positions never reach this in the source). -/
def resolveRow (view : List Row) (i : Nat) : Row := view.getD i ⟨0, ""⟩

/-- Building `update_data` for one edited row (src/app.py lines 183-203):
seed with `id` and the row's original date string (falling back to the
current date when that string is empty), then fold the changed columns. -/
def buildPayload (now : String) (row : Row) (changes : List (String × PyVal)) :
    Except String Payload :=
  applyChanges
    [("id", .vInt row.id),
     ("date", .vStr (if row.date == "" then now else row.date))]
    changes

/-- The `for filtered_index, changes in edited_rows.items():` loop
(src/app.py lines 176-205): skip positions that are also deleted, skip
out-of-range positions, otherwise build the payload and append it to
`data_to_upsert`.  A raised coercion error aborts the loop. -/
def buildUpsertBatch (now : String) (view : List Row) (deleted : List Nat) :
    List (Nat × List (String × PyVal)) → Except String (List Payload)
  | [] => .ok []
  | (p, ch) :: rest =>
      if p ∈ deleted then buildUpsertBatch now view deleted rest
      else if view.length ≤ p then buildUpsertBatch now view deleted rest
      else
        match buildPayload now (resolveRow view p) ch with
        | .error e => .error e
        | .ok pl => (buildUpsertBatch now view deleted rest).map (fun b => pl :: b)

/-- Computation of `ids_to_delete` (src/app.py lines 164-165): keep in-range deleted
positions, resolve each to its row's `id`. -/
def deleteIdsOf (view : List Row) (deleted : List Nat) : List Int :=
  (deleted.filter (fun i => i < view.length)).map (fun i => (resolveRow view i).id)

/-- A store mutation issued by the reconciler: the batched
`delete().in_('id', ids)` call or the batched `upsert(data)` call. -/
inductive StoreCall : Type where
  | deleteIn (ids : List Int) : StoreCall
  | upsert (batch : List Payload) : StoreCall
deriving DecidableEq

/-- Result of one reconciliation: the store calls issued, in order, and
whether the function reached its success path (`ok = false` models the
`except` branch that sets the "自动保存失败" message; in that branch the
delete call, if any, has already been issued and no upsert is issued). -/
structure SaveResult where
  calls : List StoreCall
  ok : Bool
deriving DecidableEq

/-- The function `save_incremental_changes(displayed_df, editor_state)` (src/app.py
lines 149-218), as a function of the displayed view, the editor state and
the current date string (`datetime.now().strftime('%Y-%m-%d')`).  Store
calls are recorded in issue order; only the coercion exceptions are
modelled (the store itself is the external collaborator). -/
def save_incremental_changes (now : String) (view : List Row) (st : EditorState) :
    SaveResult :=
  let idsToDelete :=
    if st.deleted_rows.isEmpty then [] else deleteIdsOf view st.deleted_rows
  let callsDel :=
    if idsToDelete.isEmpty then [] else [StoreCall.deleteIn idsToDelete]
  match buildUpsertBatch now view st.deleted_rows st.edited_rows with
  | .error _ => { calls := callsDel, ok := false }
  | .ok batch =>
      { calls := callsDel ++ (if batch.isEmpty then [] else [StoreCall.upsert batch])
        ok := true }

/-- All ids appearing in delete calls of a call list. -/
def deleteCallIds : List StoreCall → List Int
  | [] => []
  | .deleteIn ids :: r => ids ++ deleteCallIds r
  | .upsert _ :: r => deleteCallIds r

/-- All payloads appearing in upsert calls of a call list. -/
def upsertPayloads : List StoreCall → List Payload
  | [] => []
  | .deleteIn _ :: r => upsertPayloads r
  | .upsert b :: r => b ++ upsertPayloads r

/-- True when a call list contains no upsert call. -/
def noUpsertCall (calls : List StoreCall) : Bool :=
  calls.all (fun c => match c with | .upsert _ => false | _ => true)

/-- The editor state with every out-of-range position removed, used to
express that out-of-range positions are ignored by the reconciler. -/
def restrictToView (view : List Row) (st : EditorState) : EditorState :=
  { deleted_rows := st.deleted_rows.filter (fun i => i < view.length)
    edited_rows := st.edited_rows.filter (fun e => e.1 < view.length) }

/-- True when no payload of any upsert call carries `rid` as its `id`. -/
def upsertIdAbsent (calls : List StoreCall) (rid : Int) : Bool :=
  (upsertPayloads calls).all
    (fun pl => decide (lookupKey pl "id" ≠ some (.vInt rid)))

/-! ## Fuzzy search (src/app.py lines 60-64 and 535-543) -/

/-- Function `normalize_text_for_fuzzy_search` (src/app.py lines 60-64): empty for
a missing value, else remove every hyphen and space and upper-case.
`replace('-', '')` on a single character is exactly removal of that
character; `str.upper` is the per-character upper-casing. -/
def normalize_text_for_fuzzy_search (text : Option String) : String :=
  match text with
  | none => ""
  | some t =>
      String.mk (((t.data.filter (fun c => !(c == '-'))).filter
        (fun c => !(c == ' '))).map Char.toUpper)

/-- Case-insensitive substring containment, modelling
`Series.str.contains(pat, case=False)` for a pattern with no regex
metacharacters (the normalized needles here consist of letters and
digits only). -/
def strContainsCI (hay pat : String) : Bool :=
  decide ((pat.data.map Char.toLower) <:+: (hay.data.map Char.toLower))

/-- The name/number/id filter condition of the main page (src/app.py
lines 535-543): the normalized needle is searched, case-insensitively,
in the concatenation of the normalized `card_name`, `card_number` and
stringified `id` of a record. -/
def nameFilterMatches (search name number : String) (id : Int) : Bool :=
  strContainsCI
    (normalize_text_for_fuzzy_search (some name)
      ++ normalize_text_for_fuzzy_search (some number)
      ++ normalize_text_for_fuzzy_search (some (toString id)))
    (normalize_text_for_fuzzy_search (some search))

/-! ## Snapshot loader (src/app.py lines 87-110) and the main page's
snapshot post-processing (src/app.py lines 333-340) -/

/-- One raw row as returned by the store's `select("*")` (JSON values,
after `df.replace({np.nan: None})` unified the missing markers). -/
structure RawRow where
  id : PyVal
  date : PyVal
  card_number : PyVal
  card_name : PyVal
  card_set : PyVal
  price : PyVal
  quantity : PyVal
  rarity : PyVal
  color : PyVal
  image_url : PyVal
deriving DecidableEq

/-- Pandas `pd.to_numeric(v, errors='coerce')`: numbers pass through, numeric
strings parse, anything else becomes NaN (`none`). -/
def toNumericCoerce : PyVal → Option ℚ
  | .vInt n => some (n : ℚ)
  | .vFloat q => some q
  | .vStr s => pyFloatOfString s
  | .vNone => none

/-- Pipeline `pd.to_numeric(v, errors='coerce').fillna(0).astype(int)` applied to
one cell (src/app.py line 103). -/
def toNumericFillna0Int (v : PyVal) : Int := ratTrunc ((toNumericCoerce v).getD 0)

/-- Pipeline `pd.to_numeric(v, errors='coerce').fillna(1).astype(int)` applied to
one cell (src/app.py line 339). -/
def toNumericFillna1Int (v : PyVal) : Int := ratTrunc ((toNumericCoerce v).getD 1)

/-- Recognizer for `pd.to_datetime(v, errors='coerce')` on the date
strings this app stores: a four-digit year, two-digit month and
two-digit day separated by `-` or `/`, with in-range month and day;
anything else (notably `None` and non-date text) is NaT (`none`).  The
parse result is returned in canonical `YYYY-MM-DD` form. -/
def pdToDatetime : PyVal → Option String
  | .vStr s =>
      match s.data with
      | [y1, y2, y3, y4, s1, m1, m2, s2, d1, d2] =>
          if (s1 == '-' || s1 == '/') && (s1 == s2)
              && allDigits [y1, y2, y3, y4, m1, m2, d1, d2]
              && 1 ≤ digitsToNat [m1, m2] && digitsToNat [m1, m2] ≤ 12
              && 1 ≤ digitsToNat [d1, d2] && digitsToNat [d1, d2] ≤ 31 then
            some (String.mk [y1, y2, y3, y4, '-', m1, m2, '-', d1, d2])
          else none
      | _ => none
  | _ => none

/-- One loaded row: `load_data` coerces `id` to an int (src/app.py line
103), parses `date` into the auxiliary `date_dt` column (line 104, NaT
as `none`) and keeps every other column as it came. -/
structure LoadedRow where
  id : Int
  date : PyVal
  card_number : PyVal
  card_name : PyVal
  card_set : PyVal
  price : PyVal
  quantity : PyVal
  rarity : PyVal
  color : PyVal
  image_url : PyVal
  date_dt : Option String
deriving DecidableEq

/-- The per-row effect of `load_data` (src/app.py lines 102-105). -/
def loadRow (r : RawRow) : LoadedRow :=
  { id := toNumericFillna0Int r.id
    date := r.date
    card_number := r.card_number
    card_name := r.card_name
    card_set := r.card_set
    price := r.price
    quantity := r.quantity
    rarity := r.rarity
    color := r.color
    image_url := r.image_url
    date_dt := pdToDatetime r.date }

/-- Function `load_data()` (src/app.py lines 87-110) on the rows returned by the
store, in the store's response order.  The column-wise operations of the
source are row-independent, so the frame is a list of rows. -/
def load_data (rows : List RawRow) : List LoadedRow := rows.map loadRow

/-- Pandas `Series.fillna('')` applied to one cell. -/
def fillEmpty (v : PyVal) : PyVal := if v == .vNone then .vStr "" else v

/-- The per-row effect of the main page's snapshot post-processing other
than the `dropna` (src/app.py lines 334-339): fill the five text columns
and coerce `quantity`. -/
def postprocessRow (r : LoadedRow) : LoadedRow :=
  { r with
    image_url := fillEmpty r.image_url
    rarity := fillEmpty r.rarity
    color := fillEmpty r.color
    card_set := fillEmpty r.card_set
    card_number := fillEmpty r.card_number
    quantity := .vInt (toNumericFillna1Int r.quantity) }

/-- The working snapshot of the main page: `load_data()` followed by the
fills, the quantity coercion and `df.dropna(subset=['date_dt'])`
(src/app.py lines 330-340).  On an empty table every step is a no-op,
matching the source's `if not df.empty:` guard. -/
def mainSnapshot (rows : List RawRow) : List LoadedRow :=
  ((load_data rows).map postprocessRow).filter (fun r => r.date_dt.isSome)

/-- A string in the canonical `YYYY-MM-DD` wire format: four digits, a
hyphen, two digits, a hyphen, two digits. -/
def isCanonicalDateString (s : String) : Bool :=
  match s.data with
  | [y1, y2, y3, y4, h1, m1, m2, h2, d1, d2] =>
      h1 == '-' && h2 == '-' && allDigits [y1, y2, y3, y4, m1, m2, d1, d2]
  | _ => false

/-! ## `add_card` (src/app.py lines 113-146): identity allocation and the
inserted row -/

/-- The id computation of `add_card` (src/app.py lines 118-126) as a
function of the store's `select("id").order("id", desc=True).limit(1)`
response: `none` models an empty `response.data`, `some none` a single
row whose `id` is null, `some (some m)` a single row with id `m`.
`max_id` starts at 0; a null id fails `pd.notna` and yields 1. -/
def addCardNewId (resp : Option (Option Int)) : Int :=
  match resp with
  | none => 0 + 1
  | some none => 1
  | some (some m) => m + 1

/-- Largest element of an id list (0 for the empty list, which callers
exclude). -/
def maxOfIds : List Int → Int
  | [] => 0
  | x :: xs => xs.foldl max x

/-- The store's answer to `select("id").order("id", desc=True).limit(1)`
as a function of the table's id column.  PostgreSQL descending order
places NULLs first, so a table containing any null id answers with the
null row; otherwise the row with the maximal id is returned. -/
def storeTopId (ids : List (Option Int)) : Option (Option Int) :=
  if ids.isEmpty then none
  else if none ∈ ids then some none
  else some (some (maxOfIds ids.reduceOption))

/-- The allocator behaviour asserted by the spec (§4.1): `max` over the
parseable ids plus one, and 1 when there are none.  Stated here only to
be compared with the code's behaviour. -/
def nextIdSpec (ids : List (Option Int)) : Int :=
  match ids.reduceOption with
  | [] => 1
  | x :: xs => xs.foldl max x + 1

/-- Two-digit `'%02d'`-style padding used by `date.strftime('%Y-%m-%d')`. -/
def pad2 (n : Nat) : String := if n < 10 then "0" ++ toString n else toString n

/-- Four-digit `'%04d'`-style padding for the year. -/
def pad4 (n : Nat) : String :=
  if n < 10 then "000" ++ toString n
  else if n < 100 then "00" ++ toString n
  else if n < 1000 then "0" ++ toString n
  else toString n

/-- Formatting `date.strftime('%Y-%m-%d')` (src/app.py line 131). -/
def strftimeYMD (y m d : Nat) : String := pad4 y ++ "-" ++ pad2 m ++ "-" ++ pad2 d

/-- The row dictionary `add_card` inserts (src/app.py lines 129-140).
Every field of the structure is total — in particular `image_url` has
type `String` — mirroring that the dict always carries all ten keys. -/
structure NewRowData where
  id : Int
  date : String
  card_number : String
  card_name : String
  card_set : String
  price : ℚ
  quantity : Int
  rarity : String
  color : String
  image_url : String
deriving DecidableEq

/-- The dict `new_row_data` as built by `add_card` (src/app.py lines 129-140):
the caller-supplied image URL when it is truthy, the empty string when
it is `None` or empty (`image_url if image_url else ""`). -/
def addCardNewRow (newId : Int) (name number cardSet : String) (price : ℚ)
    (quantity : Int) (rarity color : String) (y m d : Nat)
    (imageUrl : Option String) : NewRowData :=
  { id := newId
    date := strftimeYMD y m d
    card_number := number
    card_name := name
    card_set := cardSet
    price := price
    quantity := quantity
    rarity := rarity
    color := color
    image_url := match imageUrl with
      | none => ""
      | some s => if s == "" then "" else s }

/-! ## Dictionary lemmas -/

theorem lookupKey_cons (a : String) (b : PyVal) (pl : Payload) (k : String) :
    lookupKey ((a, b) :: pl) k = if a = k then some b else lookupKey pl k := by
  unfold lookupKey
  by_cases h : a = k
  · rw [List.find?_cons_of_pos _ (by simp [h]), if_pos h]
    rfl
  · rw [List.find?_cons_of_neg _ (by simp [h]), if_neg h]

theorem lookupKey_map_overwrite_ne (pl : Payload) (col k : String) (v : PyVal)
    (h : ¬ col = k) :
    lookupKey (pl.map (fun kv => if kv.1 == col then (col, v) else kv)) k
      = lookupKey pl k := by
  induction pl with
  | nil => rfl
  | cons kv rest ih =>
      obtain ⟨a, b⟩ := kv
      simp only [List.map_cons]
      by_cases hac : a = col
      · subst hac
        rw [show (if ((a, b).1 == a) = true then (a, v) else (a, b)) = (a, v) by simp]
        rw [lookupKey_cons, lookupKey_cons, if_neg h, if_neg h, ih]
      · rw [show (if ((a, b).1 == col) = true then (col, v) else (a, b)) = (a, b) by simp [hac]]
        rw [lookupKey_cons, lookupKey_cons, ih]

theorem lookupKey_append_single_ne (pl : Payload) (col k : String) (v : PyVal)
    (h : ¬ col = k) :
    lookupKey (pl ++ [(col, v)]) k = lookupKey pl k := by
  induction pl with
  | nil =>
      show lookupKey [(col, v)] k = lookupKey [] k
      rw [lookupKey_cons, if_neg h]
  | cons kv rest ih =>
      obtain ⟨a, b⟩ := kv
      simp only [List.cons_append, lookupKey_cons, ih]

theorem setKey_lookup_ne (pl : Payload) (col k : String) (v : PyVal) (h : ¬ col = k) :
    lookupKey (setKey pl col v) k = lookupKey pl k := by
  unfold setKey
  split
  · exact lookupKey_map_overwrite_ne pl col k v h
  · exact lookupKey_append_single_ne pl col k v h

theorem lookupKey_map_overwrite_self (pl : Payload) (col : String) (v : PyVal)
    (h : pl.any (fun kv => kv.1 == col) = true) :
    lookupKey (pl.map (fun kv => if kv.1 == col then (col, v) else kv)) col
      = some v := by
  induction pl with
  | nil => simp at h
  | cons kv rest ih =>
      obtain ⟨a, b⟩ := kv
      simp only [List.map_cons]
      by_cases hac : a = col
      · subst hac
        rw [show (if ((a, b).1 == a) = true then (a, v) else (a, b)) = (a, v) by simp]
        rw [lookupKey_cons, if_pos rfl]
      · rw [show (if ((a, b).1 == col) = true then (col, v) else (a, b)) = (a, b) by simp [hac]]
        rw [lookupKey_cons, if_neg hac]
        refine ih ?_
        simp only [List.any_cons, Bool.or_eq_true, beq_iff_eq] at h
        rcases h with h | h
        · exact absurd h hac
        · simpa using h

theorem lookupKey_append_single_self (pl : Payload) (col : String) (v : PyVal)
    (h : pl.any (fun kv => kv.1 == col) = false) :
    lookupKey (pl ++ [(col, v)]) col = some v := by
  induction pl with
  | nil =>
      show lookupKey [(col, v)] col = some v
      rw [lookupKey_cons, if_pos rfl]
  | cons kv rest ih =>
      obtain ⟨a, b⟩ := kv
      simp only [List.any_cons, Bool.or_eq_false_iff, beq_eq_false_iff_ne, ne_eq] at h
      simp only [List.cons_append, lookupKey_cons]
      rw [if_neg h.1]
      refine ih ?_
      simpa [Bool.or_eq_false_iff, beq_eq_false_iff_ne] using h.2

theorem setKey_lookup_self (pl : Payload) (col : String) (v : PyVal) :
    lookupKey (setKey pl col v) col = some v := by
  unfold setKey
  split
  · exact lookupKey_map_overwrite_self pl col v (by assumption)
  · rename_i hany
    exact lookupKey_append_single_self pl col v (Bool.eq_false_iff.mpr hany)

theorem setKey_preserves_isSome (pl : Payload) (col k : String) (v : PyVal)
    (h : (lookupKey pl k).isSome = true) :
    (lookupKey (setKey pl col v) k).isSome = true := by
  by_cases hck : col = k
  · subst hck
    rw [setKey_lookup_self]
    rfl
  · rw [setKey_lookup_ne pl col k v hck]
    exact h

/-! ## Payload-construction lemmas -/

theorem applyChange_ok_lookup_ne (pl : Payload) (col : String) (v : PyVal)
    (pl' : Payload) (k : String) (hck : ¬ col = k)
    (h : applyChange pl col v = .ok pl') :
    lookupKey pl' k = lookupKey pl k := by
  unfold applyChange at h
  split at h
  · injection h with h
    subst h
    split
    · exact setKey_lookup_ne pl col k v hck
    · rfl
  · split at h
    · split at h
      · injection h with h
        subst h
        exact setKey_lookup_ne pl col k _ hck
      · simp at h
    · split at h
      · split at h
        · injection h with h
          subst h
          exact setKey_lookup_ne pl col k _ hck
        · simp at h
      · injection h with h
        subst h
        exact setKey_lookup_ne pl col k _ hck

theorem applyChange_ok_preserves_isSome (pl : Payload) (col : String) (v : PyVal)
    (pl' : Payload) (k : String)
    (h : applyChange pl col v = .ok pl')
    (hs : (lookupKey pl k).isSome = true) :
    (lookupKey pl' k).isSome = true := by
  unfold applyChange at h
  split at h
  · injection h with h
    subst h
    split
    · exact setKey_preserves_isSome pl col k v hs
    · exact hs
  · split at h
    · split at h
      · injection h with h
        subst h
        exact setKey_preserves_isSome pl col k _ hs
      · simp at h
    · split at h
      · split at h
        · injection h with h
          subst h
          exact setKey_preserves_isSome pl col k _ hs
        · simp at h
      · injection h with h
        subst h
        exact setKey_preserves_isSome pl col k _ hs

theorem applyChanges_ok_lookup_notMem (ch : List (String × PyVal)) (pl pl' : Payload)
    (k : String) (hk : ∀ c ∈ ch, ¬ c.1 = k) (h : applyChanges pl ch = .ok pl') :
    lookupKey pl' k = lookupKey pl k := by
  induction ch generalizing pl with
  | nil =>
      injection h with h
      subst h
      rfl
  | cons c rest ih =>
      simp only [applyChanges] at h
      cases happly : applyChange pl c.1 c.2 with
      | error e => rw [happly] at h; simp at h
      | ok pl1 =>
          rw [happly] at h
          rw [ih pl1 (fun d hd => hk d (List.mem_cons_of_mem _ hd)) h]
          exact applyChange_ok_lookup_ne pl c.1 c.2 pl1 k (hk c (List.mem_cons_self _ _)) happly

theorem applyChanges_ok_preserves_isSome (ch : List (String × PyVal)) (pl pl' : Payload)
    (k : String) (h : applyChanges pl ch = .ok pl')
    (hs : (lookupKey pl k).isSome = true) :
    (lookupKey pl' k).isSome = true := by
  induction ch generalizing pl with
  | nil =>
      injection h with h
      subst h
      exact hs
  | cons c rest ih =>
      simp only [applyChanges] at h
      cases happly : applyChange pl c.1 c.2 with
      | error e => rw [happly] at h; simp at h
      | ok pl1 =>
          rw [happly] at h
          exact ih pl1 h (applyChange_ok_preserves_isSome pl c.1 c.2 pl1 k happly hs)

theorem buildPayload_ok_id (now : String) (row : Row) (ch : List (String × PyVal))
    (pl : Payload) (hid : ∀ c ∈ ch, ¬ c.1 = "id")
    (h : buildPayload now row ch = .ok pl) :
    lookupKey pl "id" = some (.vInt row.id) := by
  unfold buildPayload at h
  rw [applyChanges_ok_lookup_notMem ch _ pl "id" hid h]
  rw [lookupKey_cons, if_pos rfl]

theorem buildPayload_ok_date_default (now : String) (row : Row)
    (ch : List (String × PyVal)) (pl : Payload)
    (hd : ∀ c ∈ ch, ¬ c.1 = "date")
    (h : buildPayload now row ch = .ok pl) :
    lookupKey pl "date" = some (.vStr (if row.date == "" then now else row.date)) := by
  unfold buildPayload at h
  rw [applyChanges_ok_lookup_notMem ch _ pl "date" hd h]
  rw [lookupKey_cons, if_neg (by decide), lookupKey_cons, if_pos rfl]

theorem buildPayload_ok_id_isSome (now : String) (row : Row)
    (ch : List (String × PyVal)) (pl : Payload)
    (h : buildPayload now row ch = .ok pl) :
    (lookupKey pl "id").isSome = true := by
  refine applyChanges_ok_preserves_isSome ch _ pl "id" h ?_
  rw [lookupKey_cons, if_pos rfl]
  rfl

theorem buildPayload_ok_date_isSome (now : String) (row : Row)
    (ch : List (String × PyVal)) (pl : Payload)
    (h : buildPayload now row ch = .ok pl) :
    (lookupKey pl "date").isSome = true := by
  refine applyChanges_ok_preserves_isSome ch _ pl "date" h ?_
  rw [lookupKey_cons, if_neg (by decide), lookupKey_cons, if_pos rfl]
  rfl

/-! ## Upsert-batch lemmas -/

theorem buildUpsertBatch_ok_mem (now : String) (view : List Row) (deleted : List Nat)
    (edits : List (Nat × List (String × PyVal))) (batch : List Payload)
    (h : buildUpsertBatch now view deleted edits = .ok batch)
    (pl : Payload) (hpl : pl ∈ batch) :
    ∃ p ch, (p, ch) ∈ edits ∧ p ∉ deleted ∧ p < view.length
      ∧ buildPayload now (resolveRow view p) ch = .ok pl := by
  induction edits generalizing batch with
  | nil =>
      injection h with h
      subst h
      cases hpl
  | cons e rest ih =>
      obtain ⟨p, ch⟩ := e
      simp only [buildUpsertBatch] at h
      split at h
      · obtain ⟨q, cq, hmem, hq⟩ := ih batch h hpl
        exact ⟨q, cq, List.mem_cons_of_mem _ hmem, hq⟩
      · split at h
        · obtain ⟨q, cq, hmem, hq⟩ := ih batch h hpl
          exact ⟨q, cq, List.mem_cons_of_mem _ hmem, hq⟩
        · rename_i hdel hlen
          cases hbp : buildPayload now (resolveRow view p) ch with
          | error e => rw [hbp] at h; simp at h
          | ok pl0 =>
              rw [hbp] at h
              cases hrest : buildUpsertBatch now view deleted rest with
              | error e => rw [hrest] at h; simp [Except.map] at h
              | ok b' =>
                  rw [hrest] at h
                  simp only [Except.map] at h
                  injection h with h
                  subst h
                  rcases List.mem_cons.mp hpl with hpl | hpl
                  · subst hpl
                    exact ⟨p, ch, List.mem_cons_self _ _, hdel,
                      Nat.lt_of_not_le hlen, hbp⟩
                  · obtain ⟨q, cq, hmem, hq⟩ := ih b' hrest hpl
                    exact ⟨q, cq, List.mem_cons_of_mem _ hmem, hq⟩
                    
theorem buildUpsertBatch_error_of_mem (now : String) (view : List Row)
    (deleted : List Nat) (edits : List (Nat × List (String × PyVal)))
    (p : Nat) (ch : List (String × PyVal)) (e : String)
    (hmem : (p, ch) ∈ edits) (hnd : p ∉ deleted) (hlt : p < view.length)
    (herr : buildPayload now (resolveRow view p) ch = .error e) :
    ∃ e', buildUpsertBatch now view deleted edits = .error e' := by
  induction edits with
  | nil => cases hmem
  | cons a rest ih =>
      obtain ⟨q, cq⟩ := a
      simp only [buildUpsertBatch]
      rcases List.mem_cons.mp hmem with hhead | htail
      · injection hhead with h1 h2
        subst h1
        subst h2
        rw [if_neg hnd, if_neg (Nat.not_le_of_lt hlt), herr]
        exact ⟨e, rfl⟩
      · by_cases hq1 : q ∈ deleted
        · rw [if_pos hq1]
          exact ih htail
        · rw [if_neg hq1]
          by_cases hq2 : view.length ≤ q
          · rw [if_pos hq2]
            exact ih htail
          · rw [if_neg hq2]
            cases hbp : buildPayload now (resolveRow view q) cq with
            | error e2 => exact ⟨e2, rfl⟩
            | ok pl0 =>
                obtain ⟨e', he'⟩ := ih htail
                rw [he']
                exact ⟨e', rfl⟩

theorem buildUpsertBatch_restrict (now : String) (view : List Row)
    (deleted : List Nat) (edits : List (Nat × List (String × PyVal))) :
    buildUpsertBatch now view deleted edits
      = buildUpsertBatch now view (deleted.filter (fun i => i < view.length))
          (edits.filter (fun e => e.1 < view.length)) := by
  induction edits with
  | nil => rfl
  | cons a rest ih =>
      obtain ⟨p, ch⟩ := a
      by_cases hp : p < view.length
      · have hfilter : ((p, ch) :: rest).filter (fun e => e.1 < view.length)
            = (p, ch) :: rest.filter (fun e => e.1 < view.length) := by
          simp [List.filter_cons, hp]
        rw [hfilter]
        simp only [buildUpsertBatch]
        have hmemiff : (p ∈ deleted.filter (fun i => i < view.length)) ↔ p ∈ deleted := by
          simp [List.mem_filter, hp]
        by_cases hd : p ∈ deleted
        · rw [if_pos hd, if_pos (hmemiff.mpr hd)]
          exact ih
        · rw [if_neg hd, if_neg (fun hh => hd (hmemiff.mp hh))]
          rw [if_neg (Nat.not_le_of_lt hp), if_neg (Nat.not_le_of_lt hp)]
          rw [ih]
      · have hfilter : ((p, ch) :: rest).filter (fun e => e.1 < view.length)
            = rest.filter (fun e => e.1 < view.length) := by
          simp [List.filter_cons, hp]
        rw [hfilter]
        simp only [buildUpsertBatch]
        by_cases hd : p ∈ deleted
        · rw [if_pos hd]
          exact ih
        · rw [if_neg hd, if_pos (Nat.le_of_not_lt hp)]
          exact ih

theorem deleteIdsOf_restrict (view : List Row) (deleted : List Nat) :
    deleteIdsOf view (deleted.filter (fun i => i < view.length))
      = deleteIdsOf view deleted := by
  unfold deleteIdsOf
  rw [List.filter_filter]
  congr 1
  apply List.filter_congr
  intro i _
  simp

theorem ite_isEmpty_deleteIdsOf (view : List Row) (l : List Nat) :
    (if l.isEmpty then [] else deleteIdsOf view l) = deleteIdsOf view l := by
  cases l with
  | nil => rfl
  | cons a t => rfl

/-! ## Save-level structural lemmas -/

theorem deleteCallIds_append (a b : List StoreCall) :
    deleteCallIds (a ++ b) = deleteCallIds a ++ deleteCallIds b := by
  induction a with
  | nil => rfl
  | cons c r ih =>
      cases c with
      | deleteIn ids => simp [deleteCallIds, ih]
      | upsert batch => simp [deleteCallIds, ih]

theorem upsertPayloads_append (a b : List StoreCall) :
    upsertPayloads (a ++ b) = upsertPayloads a ++ upsertPayloads b := by
  induction a with
  | nil => rfl
  | cons c r ih =>
      cases c with
      | deleteIn ids => simp [upsertPayloads, ih]
      | upsert batch => simp [upsertPayloads, ih]

theorem length_ite_nil_singleton {α : Type} (c : Prop) [Decidable c] (x : α) :
    (if c then ([] : List α) else [x]).length ≤ 1 := by
  split
  · simp
  · simp

theorem eq_of_mem_ite_nil_singleton {α : Type} {c : Prop} [Decidable c] {x a : α}
    (h : a ∈ (if c then ([] : List α) else [x])) : a = x := by
  split at h
  · cases h
  · rcases List.mem_cons.mp h with rfl | h
    · rfl
    · cases h

theorem save_calls_shape (now : String) (view : List Row) (st : EditorState) :
    ∃ cd cu, (save_incremental_changes now view st).calls = cd ++ cu
      ∧ (∀ c ∈ cd, ∃ ids, c = .deleteIn ids)
      ∧ (∀ c ∈ cu, ∃ b, c = .upsert b)
      ∧ cd.length ≤ 1 ∧ cu.length ≤ 1 := by
  unfold save_incremental_changes
  cases hB : buildUpsertBatch now view st.deleted_rows st.edited_rows with
  | error e =>
      refine ⟨_, [], (List.append_nil _).symm, ?_, ?_, ?_, ?_⟩
      · intro c hc
        exact ⟨_, eq_of_mem_ite_nil_singleton hc⟩
      · intro c hc
        cases hc
      · exact length_ite_nil_singleton _ _
      · simp
  | ok batch =>
      refine ⟨_, _, rfl, ?_, ?_, ?_, ?_⟩
      · intro c hc
        exact ⟨_, eq_of_mem_ite_nil_singleton hc⟩
      · intro c hc
        exact ⟨_, eq_of_mem_ite_nil_singleton hc⟩
      · exact length_ite_nil_singleton _ _
      · exact length_ite_nil_singleton _ _

theorem ite_isEmpty_self {α : Type} (l : List α) : (if l.isEmpty then [] else l) = l := by
  cases l with
  | nil => rfl
  | cons a t => rfl

theorem deleteCallIds_ite_delete (c : Prop) [Decidable c] (ids : List Int) :
    deleteCallIds (if c then [] else [.deleteIn ids]) = if c then [] else ids := by
  split
  · rfl
  · simp [deleteCallIds]

theorem deleteCallIds_ite_upsert (c : Prop) [Decidable c] (b : List Payload) :
    deleteCallIds (if c then [] else [.upsert b]) = [] := by
  split
  · rfl
  · rfl

theorem upsertPayloads_ite_delete (c : Prop) [Decidable c] (ids : List Int) :
    upsertPayloads (if c then [] else [.deleteIn ids]) = [] := by
  split
  · rfl
  · rfl

theorem upsertPayloads_ite_upsert (c : Prop) [Decidable c] (b : List Payload) :
    upsertPayloads (if c then [] else [.upsert b]) = if c then [] else b := by
  split
  · rfl
  · simp [upsertPayloads]

theorem deleteCallIds_save (now : String) (view : List Row) (st : EditorState) :
    deleteCallIds (save_incremental_changes now view st).calls
      = deleteIdsOf view st.deleted_rows := by
  cases hB : buildUpsertBatch now view st.deleted_rows st.edited_rows with
  | error e =>
      simp only [save_incremental_changes, hB]
      rw [ite_isEmpty_deleteIdsOf, deleteCallIds_ite_delete, ite_isEmpty_self]
  | ok batch =>
      simp only [save_incremental_changes, hB]
      rw [ite_isEmpty_deleteIdsOf, deleteCallIds_append, deleteCallIds_ite_delete,
        deleteCallIds_ite_upsert, List.append_nil, ite_isEmpty_self]

theorem mem_upsertPayloads_save (now : String) (view : List Row) (st : EditorState)
    (q : Payload)
    (hq : q ∈ upsertPayloads (save_incremental_changes now view st).calls) :
    ∃ p ch, (p, ch) ∈ st.edited_rows ∧ p ∉ st.deleted_rows ∧ p < view.length
      ∧ buildPayload now (resolveRow view p) ch = .ok q := by
  cases hB : buildUpsertBatch now view st.deleted_rows st.edited_rows with
  | error e =>
      simp only [save_incremental_changes, hB] at hq
      rw [upsertPayloads_ite_delete] at hq
      cases hq
  | ok batch =>
      simp only [save_incremental_changes, hB] at hq
      rw [upsertPayloads_append, upsertPayloads_ite_delete, upsertPayloads_ite_upsert,
        List.nil_append] at hq
      split at hq
      · cases hq
      · exact buildUpsertBatch_ok_mem now view st.deleted_rows st.edited_rows batch hB q hq

theorem resolveRow_eq_getElem (view : List Row) (i : Nat) (h : i < view.length) :
    resolveRow view i = view[i] := by
  unfold resolveRow
  rw [List.getD_eq_getElem?_getD, List.getElem?_eq_getElem h]
  rfl

/-! ## Claim theorems -/

/-- C4: for every view set and editor state, edited or deleted entries whose
position is at least the view length are skipped: the reconciliation result
(store calls issued and success flag) is identical to the one obtained after
deleting every out-of-range entry from the editor state, so such an entry
triggers no store mutation, causes no error, and the remaining in-range
entries are processed unchanged. -/
theorem out_of_range_entries_ignored (now : String) (view : List Row) (st : EditorState) :
    save_incremental_changes now view st
      = save_incremental_changes now view (restrictToView view st) := by
  simp only [save_incremental_changes, restrictToView]
  rw [ite_isEmpty_deleteIdsOf, ite_isEmpty_deleteIdsOf, deleteIdsOf_restrict,
    ← buildUpsertBatch_restrict]

/-- C7: within one reconciliation the batched delete-by-key call is issued
before the batched upsert call: whenever the issued call list contains a
delete call at index `i` and an upsert call at index `j`, then `i < j`. -/
theorem deletes_issued_before_upserts (now : String) (view : List Row)
    (st : EditorState) (i j : Nat) (ids : List Int) (batch : List Payload)
    (hi : (save_incremental_changes now view st).calls.get? i = some (.deleteIn ids))
    (hj : (save_incremental_changes now view st).calls.get? j = some (.upsert batch)) :
    i < j := by
  obtain ⟨cd, cu, hcalls, hd, hu, hld, hlu⟩ := save_calls_shape now view st
  rw [hcalls] at hi hj
  have hilt : i < cd.length := by
    by_contra hge
    push_neg at hge
    rw [List.get?_append_right hge] at hi
    obtain ⟨b, hb⟩ := hu _ (List.get?_mem hi)
    exact StoreCall.noConfusion hb
  have hjge : cd.length ≤ j := by
    by_contra hlt2
    push_neg at hlt2
    rw [List.get?_append hlt2] at hj
    obtain ⟨ids2, hb⟩ := hd _ (List.get?_mem hj)
    exact StoreCall.noConfusion hb
  omega

/-- Witness for C7: a reconciliation with one deletion and one edit issues
the delete call at index 0 and the upsert call at index 1. -/
theorem deletes_issued_before_upserts_witness :
    (save_incremental_changes "2026-10-12" [⟨1, "2024-01-01"⟩, ⟨2, "2024-01-02"⟩]
        ⟨[0], [(1, [("card_name", PyVal.vStr "Z")])]⟩).calls.get? 0
        = some (.deleteIn [1])
      ∧ (save_incremental_changes "2026-10-12" [⟨1, "2024-01-01"⟩, ⟨2, "2024-01-02"⟩]
        ⟨[0], [(1, [("card_name", PyVal.vStr "Z")])]⟩).calls.get? 1
        = some (.upsert [[("id", PyVal.vInt 2), ("date", PyVal.vStr "2024-01-02"),
            ("card_name", PyVal.vStr "Z")]])
      ∧ 0 < 1 :=
  ⟨by decide, by decide,
   deletes_issued_before_upserts "2026-10-12" [⟨1, "2024-01-01"⟩, ⟨2, "2024-01-02"⟩]
     ⟨[0], [(1, [("card_name", PyVal.vStr "Z")])]⟩ 0 1 [1]
     [[("id", PyVal.vInt 2), ("date", PyVal.vStr "2024-01-02"),
       ("card_name", PyVal.vStr "Z")]] (by decide) (by decide)⟩

/-- C9: the fuzzy normalization maps "P-113", "P 113" and "p113" to the same
string, and a name filter of "p113" matches every record whose card_number
is "P-113", whatever its name and id. -/
theorem fuzzy_normalize_equivalence :
    normalize_text_for_fuzzy_search (some "P-113")
        = normalize_text_for_fuzzy_search (some "P 113")
      ∧ normalize_text_for_fuzzy_search (some "P 113")
        = normalize_text_for_fuzzy_search (some "p113")
      ∧ ∀ (name : String) (id : Int), nameFilterMatches "p113" name "P-113" id = true := by
  refine ⟨by decide, by decide, ?_⟩
  intro name id
  unfold nameFilterMatches strContainsCI
  rw [decide_eq_true_eq]
  have hnum : normalize_text_for_fuzzy_search (some "P-113") = "P113" := by decide
  rw [hnum]
  have hdata : ∀ (a b : String), (a ++ b).data = a.data ++ b.data := fun a b => rfl
  rw [hdata, hdata, List.map_append, List.map_append]
  refine ⟨(normalize_text_for_fuzzy_search (some name)).data.map Char.toLower,
    (normalize_text_for_fuzzy_search (some (toString id))).data.map Char.toLower, ?_⟩
  have h1 : (normalize_text_for_fuzzy_search (some "p113")).data.map Char.toLower
      = ['p', '1', '1', '3'] := by decide
  have h2 : ("P113" : String).data.map Char.toLower = ['p', '1', '1', '3'] := by decide
  rw [h1, h2, List.append_assoc]

/-- C10: a record inserted through the entry flow always carries a string
`image_url` (the field of the inserted dict has type `String` by
construction); when the caller supplies no image URL (`None` or the empty
string), the inserted value is the empty string. -/
theorem entry_image_url_string_default (newId : Int) (name number cardSet : String)
    (price : ℚ) (quantity : Int) (rarity color : String) (y m d : Nat)
    (u : Option String) (h : u = none ∨ u = some "") :
    (addCardNewRow newId name number cardSet price quantity rarity color y m d u).image_url
      = "" := by
  rcases h with rfl | rfl
  · rfl
  · rfl

/-- Witness for C10: inserting with no image URL stores the empty string. -/
theorem entry_image_url_string_default_witness :
    ((none : Option String) = none ∨ (none : Option String) = some "")
      ∧ (addCardNewRow 1 "Name" "C-1" "Set" 100 1 "R" "Red" 2024 1 5 none).image_url = "" :=
  ⟨Or.inl rfl,
   entry_image_url_string_default 1 "Name" "C-1" "Set" 100 1 "R" "Red" 2024 1 5 none
     (Or.inl rfl)⟩

/-- C1: if a position is both in `deleted_rows` and a key of `edited_rows`
(and in range), the delete wins: that position's resolved surrogate key is
sent in the batched delete call and appears in no payload of the upsert
batch.  The id-uniqueness invariant of the view and the read-only id column
of the editor are assumed, as the spec requires. -/
theorem delete_wins (now : String) (view : List Row) (st : EditorState) (p : Nat)
    (hlt : p < view.length) (hdel : p ∈ st.deleted_rows)
    (hedit : ∃ ch, (p, ch) ∈ st.edited_rows)
    (hnodup : (view.map Row.id).Nodup)
    (hid : ∀ e ∈ st.edited_rows, ∀ c ∈ e.2, ¬ c.1 = "id") :
    (resolveRow view p).id ∈ deleteCallIds (save_incremental_changes now view st).calls
      ∧ upsertIdAbsent (save_incremental_changes now view st).calls
          ((resolveRow view p).id) = true := by
  constructor
  · rw [deleteCallIds_save]
    unfold deleteIdsOf
    exact List.mem_map_of_mem _ (List.mem_filter.mpr ⟨hdel, by simpa using hlt⟩)
  · unfold upsertIdAbsent
    rw [List.all_eq_true]
    intro q hq
    rw [decide_eq_true_eq]
    obtain ⟨p', ch', hmem', hnd', hlt', hbp'⟩ := mem_upsertPayloads_save now view st q hq
    have hql : lookupKey q "id" = some (.vInt (resolveRow view p').id) :=
      buildPayload_ok_id now (resolveRow view p') ch' q (hid (p', ch') hmem') hbp'
    rw [hql]
    intro heq
    have hids : (resolveRow view p').id = (resolveRow view p).id := by
      have h1 := Option.some.inj heq
      exact PyVal.vInt.inj h1
    have hpp : p' = p := by
      have hg : (view.map Row.id).get ⟨p', by simpa using hlt'⟩
          = (view.map Row.id).get ⟨p, by simpa using hlt⟩ := by
        rw [List.get_eq_getElem, List.get_eq_getElem]
        rw [List.getElem_map, List.getElem_map]
        rw [← resolveRow_eq_getElem view p' hlt', ← resolveRow_eq_getElem view p hlt]
        exact hids
      have := List.nodup_iff_injective_get.mp hnodup hg
      exact Fin.mk.inj_iff.mp this
    exact hnd' (hpp ▸ hdel)

/-- Witness for C1: position 0 is both deleted and edited; its key 10 goes
to the delete call and is absent from the upsert batch. -/
theorem delete_wins_witness :
    (0 < 2 ∧ 0 ∈ [0] ∧ ((0, [("card_name", PyVal.vStr "A")])
        ∈ ([(0, [("card_name", PyVal.vStr "A")]), (1, [("card_name", PyVal.vStr "B")])]
          : List (Nat × List (String × PyVal)))))
      ∧ (resolveRow [⟨10, "2024-01-01"⟩, ⟨20, "2024-01-02"⟩] 0).id
          ∈ deleteCallIds (save_incremental_changes "2026-10-12"
              [⟨10, "2024-01-01"⟩, ⟨20, "2024-01-02"⟩]
              ⟨[0], [(0, [("card_name", PyVal.vStr "A")]),
                (1, [("card_name", PyVal.vStr "B")])]⟩).calls
      ∧ upsertIdAbsent (save_incremental_changes "2026-10-12"
            [⟨10, "2024-01-01"⟩, ⟨20, "2024-01-02"⟩]
            ⟨[0], [(0, [("card_name", PyVal.vStr "A")]),
              (1, [("card_name", PyVal.vStr "B")])]⟩).calls
          ((resolveRow [⟨10, "2024-01-01"⟩, ⟨20, "2024-01-02"⟩] 0).id) = true := by
  refine ⟨⟨by decide, by decide, by decide⟩, ?_⟩
  exact delete_wins "2026-10-12" [⟨10, "2024-01-01"⟩, ⟨20, "2024-01-02"⟩]
    ⟨[0], [(0, [("card_name", PyVal.vStr "A")]), (1, [("card_name", PyVal.vStr "B")])]⟩ 0
    (by decide) (by decide) ⟨[("card_name", PyVal.vStr "A")], by decide⟩
    (by decide) (by decide)

/-- C2 counterexample: a table whose ids are `[1, 2, 2, 0]` (a duplicate
and a zero) is loaded with its id column unchanged — not rewritten to the
dense sequence `[1, 2, 3, 4]` the claim demands — so the loader output
violates distinct-positive ids. -/
theorem loader_no_dense_rewrite_counterexample :
    ((load_data
        [⟨.vInt 1, .vStr "2024-01-01", .vNone, .vNone, .vNone, .vNone, .vNone, .vNone, .vNone, .vNone⟩,
         ⟨.vInt 2, .vStr "2024-01-02", .vNone, .vNone, .vNone, .vNone, .vNone, .vNone, .vNone, .vNone⟩,
         ⟨.vInt 2, .vStr "2024-01-03", .vNone, .vNone, .vNone, .vNone, .vNone, .vNone, .vNone, .vNone⟩,
         ⟨.vInt 0, .vStr "2024-01-04", .vNone, .vNone, .vNone, .vNone, .vNone, .vNone, .vNone, .vNone⟩]).map
      (fun r => r.id)) = [1, 2, 2, 0]
      ∧ ¬ List.Nodup [(1 : Int), 2, 2, 0]
      ∧ [(1 : Int), 2, 2, 0] ≠ [1, 2, 3, 4] :=
  ⟨by decide, by decide, by decide⟩

/-- C2 amended: the loader coerces each id pointwise to an integer —
non-numeric ids become 0 — and performs no dense 1..N rewrite, so
duplicated, zero or negative ids are preserved as they came. -/
theorem loader_id_pointwise_coercion (rows : List RawRow) :
    (load_data rows).map (fun r => r.id) = rows.map (fun r => toNumericFillna0Int r.id)
      ∧ toNumericFillna0Int (.vStr "n/a") = 0
      ∧ toNumericFillna0Int (.vInt 7) = 7 := by
  refine ⟨?_, by decide, by decide⟩
  unfold load_data
  rw [List.map_map]
  rfl

/-- C3 counterexample: an edited row whose price is the string "abc" makes
the reconciliation take its exception path (`ok = false`, the failure
message branch) and issue no store call at all — the price is not written
back as 0.0 and the write does not complete. -/
theorem price_abc_counterexample :
    save_incremental_changes "2026-10-12" [⟨1, "2024-01-01"⟩]
        ⟨[], [(0, [("price", PyVal.vStr "abc")])]⟩
      = { calls := [], ok := false } := by decide

/-- C3 amended: a price edit carrying a non-numeric, non-null string such
as "abc" makes `float(...)` raise; the function-level handler catches it,
the reconciliation reports failure and no upsert call is issued (a delete
call already issued stands).  Only the `None`/NaN price falls back to 0.0. -/
theorem price_abc_aborts_batch (now : String) (view : List Row) (st : EditorState)
    (p : Nat)
    (hmem : (p, [("price", PyVal.vStr "abc")]) ∈ st.edited_rows)
    (hnd : p ∉ st.deleted_rows) (hlt : p < view.length) :
    (save_incremental_changes now view st).ok = false
      ∧ noUpsertCall (save_incremental_changes now view st).calls = true := by
  have herr : buildPayload now (resolveRow view p) [("price", PyVal.vStr "abc")]
      = .error "abc" := rfl
  obtain ⟨e', hB⟩ := buildUpsertBatch_error_of_mem now view st.deleted_rows
    st.edited_rows p _ "abc" hmem hnd hlt herr
  simp only [save_incremental_changes, hB]
  refine ⟨by simp, ?_⟩
  split
  · rfl
  · split
    · rfl
    · rfl

/-- Witness for the amended C3: a concrete state with an in-range,
non-deleted "abc" price edit reaches the failure branch with no upsert. -/
theorem price_abc_aborts_batch_witness :
    (((0, [("price", PyVal.vStr "abc")])
        ∈ ([(0, [("price", PyVal.vStr "abc")])] : List (Nat × List (String × PyVal))))
      ∧ 0 ∉ ([] : List Nat) ∧ 0 < 1)
      ∧ (save_incremental_changes "2026-10-12" [⟨5, "2024-02-02"⟩]
          ⟨[], [(0, [("price", PyVal.vStr "abc")])]⟩).ok = false
      ∧ noUpsertCall (save_incremental_changes "2026-10-12" [⟨5, "2024-02-02"⟩]
          ⟨[], [(0, [("price", PyVal.vStr "abc")])]⟩).calls = true := by
  refine ⟨⟨by decide, by decide, by decide⟩, ?_⟩
  exact price_abc_aborts_batch "2026-10-12" [⟨5, "2024-02-02"⟩]
    ⟨[], [(0, [("price", PyVal.vStr "abc")])]⟩ 0 (by decide) (by decide) (by decide)

/-- C5 counterexample: a row whose stored date string is "2024/01/05" is
edited (price only); the upsert payload carries the date verbatim as
"2024/01/05", which is not in the canonical YYYY-MM-DD form — the seeded
date is not reformatted. -/
theorem upsert_date_not_reformatted_counterexample :
    (save_incremental_changes "2026-10-12" [⟨7, "2024/01/05"⟩]
        ⟨[], [(0, [("price", PyVal.vInt 3)])]⟩).calls
      = [.upsert [[("id", .vInt 7), ("date", .vStr "2024/01/05"),
          ("price", .vFloat 3)]]]
      ∧ isCanonicalDateString "2024/01/05" = false :=
  ⟨by decide, by decide⟩

/-- C5 amended: every successfully built upsert payload carries both an
`id` and a `date` key; when `date` is not among the edited columns the
payload's date is the row's displayed date string verbatim — the current
date string when the original is empty — with no reformatting applied. -/
theorem upsert_payload_seed_id_date (now : String) (row : Row)
    (ch : List (String × PyVal)) (pl : Payload)
    (h : buildPayload now row ch = .ok pl)
    (hd : ∀ c ∈ ch, ¬ c.1 = "date") :
    (lookupKey pl "id").isSome = true
      ∧ (lookupKey pl "date").isSome = true
      ∧ lookupKey pl "date" = some (.vStr (if row.date == "" then now else row.date)) :=
  ⟨buildPayload_ok_id_isSome now row ch pl h,
   buildPayload_ok_date_isSome now row ch pl h,
   buildPayload_ok_date_default now row ch pl hd h⟩

/-- Witness for the amended C5 at a concrete row and edit. -/
theorem upsert_payload_seed_id_date_witness :
    (buildPayload "2026-10-12" ⟨7, "2024-01-05"⟩ [("price", PyVal.vInt 3)]
        = .ok [("id", PyVal.vInt 7), ("date", PyVal.vStr "2024-01-05"),
          ("price", PyVal.vFloat 3)] : Prop)
      ∧ (lookupKey [("id", PyVal.vInt 7), ("date", PyVal.vStr "2024-01-05"),
          ("price", PyVal.vFloat 3)] "id").isSome = true
      ∧ (lookupKey [("id", PyVal.vInt 7), ("date", PyVal.vStr "2024-01-05"),
          ("price", PyVal.vFloat 3)] "date").isSome = true
      ∧ lookupKey [("id", PyVal.vInt 7), ("date", PyVal.vStr "2024-01-05"),
          ("price", PyVal.vFloat 3)] "date"
        = some (.vStr (if ("2024-01-05" : String) == "" then "2026-10-12"
            else "2024-01-05")) := by
  refine ⟨rfl, ?_⟩
  exact upsert_payload_seed_id_date "2026-10-12" ⟨7, "2024-01-05"⟩
    [("price", PyVal.vInt 3)]
    [("id", PyVal.vInt 7), ("date", PyVal.vStr "2024-01-05"), ("price", PyVal.vFloat 3)]
    rfl (by decide)

/-- C6 counterexample: a store row whose date does not parse survives
`load_data` with its date kept verbatim (not defaulted to "now"), and the
main page's `dropna(subset=['date_dt'])` then removes it: the working
snapshot is empty, so the row is dropped rather than kept with a default
date. -/
theorem unparseable_date_counterexample :
    mainSnapshot
        [⟨.vInt 1, .vStr "not a real date", .vStr "X-1", .vStr "Card X", .vNone,
          .vInt 10, .vInt 1, .vNone, .vNone, .vNone⟩] = []
      ∧ (load_data
          [⟨.vInt 1, .vStr "not a real date", .vStr "X-1", .vStr "Card X", .vNone,
            .vInt 10, .vInt 1, .vNone, .vNone, .vNone⟩]).map (fun r => r.date)
        = [PyVal.vStr "not a real date"] :=
  ⟨by decide, by decide⟩

/-- C6 amended: a fetched row whose date is unparseable is kept by
`load_data` with its date verbatim (never defaulted to "now"), but the main
page's post-processing drops it via `dropna` on `date_dt`: the processed
row value never appears in the working snapshot, and every snapshot row has
a parseable date. -/
theorem unparseable_date_row_dropped (rows : List RawRow) (r : RawRow)
    (hmem : r ∈ rows) (hbad : pdToDatetime r.date = none) :
    postprocessRow (loadRow r) ∉ mainSnapshot rows
      ∧ (loadRow r).date = r.date
      ∧ (mainSnapshot rows).all (fun r' => r'.date_dt.isSome) = true := by
  refine ⟨?_, rfl, ?_⟩
  · intro hin
    unfold mainSnapshot at hin
    have hsome := (List.mem_filter.mp hin).2
    have hdd : (postprocessRow (loadRow r)).date_dt = pdToDatetime r.date := rfl
    rw [hdd, hbad] at hsome
    simp at hsome
  · rw [List.all_eq_true]
    intro r' hr'
    exact (List.mem_filter.mp hr').2

/-- Witness for the amended C6 at a concrete one-row table. -/
theorem unparseable_date_row_dropped_witness :
    ((⟨.vInt 2, .vStr "nope", .vNone, .vNone, .vNone, .vNone, .vNone, .vNone, .vNone,
        .vNone⟩ : RawRow)
      ∈ [(⟨.vInt 2, .vStr "nope", .vNone, .vNone, .vNone, .vNone, .vNone, .vNone,
        .vNone, .vNone⟩ : RawRow)])
      ∧ pdToDatetime (PyVal.vStr "nope") = none
      ∧ (postprocessRow (loadRow ⟨.vInt 2, .vStr "nope", .vNone, .vNone, .vNone,
          .vNone, .vNone, .vNone, .vNone, .vNone⟩)
        ∉ mainSnapshot [⟨.vInt 2, .vStr "nope", .vNone, .vNone, .vNone, .vNone,
          .vNone, .vNone, .vNone, .vNone⟩]
      ∧ (loadRow (⟨.vInt 2, .vStr "nope", .vNone, .vNone, .vNone, .vNone, .vNone,
          .vNone, .vNone, .vNone⟩ : RawRow)).date = PyVal.vStr "nope"
      ∧ (mainSnapshot [⟨.vInt 2, .vStr "nope", .vNone, .vNone, .vNone, .vNone,
          .vNone, .vNone, .vNone, .vNone⟩]).all (fun r' => r'.date_dt.isSome) = true) := by
  refine ⟨by decide, by decide, ?_⟩
  exact unparseable_date_row_dropped
    [⟨.vInt 2, .vStr "nope", .vNone, .vNone, .vNone, .vNone, .vNone, .vNone, .vNone,
      .vNone⟩]
    ⟨.vInt 2, .vStr "nope", .vNone, .vNone, .vNone, .vNone, .vNone, .vNone, .vNone,
      .vNone⟩ (by decide) (by decide)

/-- C8 counterexample: `add_card` does not compute a maximum over the
parseable ids — it takes the single top row of the store's
order-by-id-descending query.  For a table with ids `{5, NULL}` the
descending order places the NULL row first, `pd.notna` fails and the
allocator returns 1, not `max{5} + 1 = 6`: a parseable id is ignored, not
"excluded from the max computation". -/
theorem allocator_ignores_parseable_ids_counterexample :
    addCardNewId (storeTopId [some 5, none]) = 1
      ∧ nextIdSpec [some 5, none] = 6
      ∧ addCardNewId (storeTopId [some 5, none]) ≠ nextIdSpec [some 5, none] :=
  ⟨by decide, by decide, by decide⟩

/-- C8 amended: the allocator returns `top + 1` where `top` is the id of
the store's single order-by-id-descending row.  When every id is a
non-null integer this equals `max(ids) + 1`; on an empty table it returns
1; and whenever the table contains a null id (which the descending order
places first) it returns 1 regardless of the other ids, never raising. -/
theorem allocator_amended (ids : List (Option Int)) :
    (ids ≠ [] → none ∉ ids → addCardNewId (storeTopId ids) = nextIdSpec ids)
      ∧ (ids = [] → addCardNewId (storeTopId ids) = 1)
      ∧ (none ∈ ids → addCardNewId (storeTopId ids) = 1) := by
  refine ⟨?_, ?_, ?_⟩
  · intro h1 h2
    unfold storeTopId
    rw [if_neg (by simpa using h1), if_neg h2]
    have hro : ids.reduceOption ≠ [] := by
      cases ids with
      | nil => exact absurd rfl h1
      | cons a t =>
          cases a with
          | none => exact absurd (List.mem_cons_self _ _) h2
          | some x => simp [List.reduceOption_cons_of_some]
    unfold addCardNewId nextIdSpec maxOfIds
    cases hc : ids.reduceOption with
    | nil => exact absurd hc hro
    | cons x xs => rfl
  · intro h
    subst h
    rfl
  · intro h
    unfold storeTopId
    rw [if_neg (by rintro hh; rw [List.isEmpty_iff] at hh; subst hh; cases h), if_pos h]
    rfl

/-- Witness for the amended C8: a one-row table with id 5 allocates 6. -/
theorem allocator_amended_witness :
    (([some 5] : List (Option Int)) ≠ [] ∧ none ∉ ([some 5] : List (Option Int)))
      ∧ addCardNewId (storeTopId [some 5]) = nextIdSpec [some 5]
      ∧ nextIdSpec [some 5] = 6 :=
  ⟨⟨by decide, by decide⟩,
   (allocator_amended [some 5]).1 (by decide) (by decide), by decide⟩
